import Mathlib

/-!
Shallow embedding of the function-translation slice of the Kani gotoc backend
(file src/kani-compiler/rustc_codegen_kani/src/codegen/function.rs), together
with theorems settling the spec claims about it.

External collaborators (type lowering, block translation, span resolution,
cbmc symbol/expression constructors) are modelled as parameters or as
definitions marked "Modelled from the spec".
-/

set_option maxHeartbeats 1000000

namespace RmcCodegen

/-- A resolved source location, as returned by the external span resolver
(codegen_span), which the spec treats as a black box returning file and line. -/
structure SpanInfo where
  filename : String
  line : Nat
deriving DecidableEq, Repr

/-- Literal kinds occurring as attribute arguments: integer literals (the
u128 payload of LitKind::Int) versus anything else. -/
inductive LitKind where
  | int (v : Nat)
  | other
deriving DecidableEq, Repr

/-- One element of an attribute argument list; its literal() projection is
none when the element is not a literal. -/
structure MetaItem where
  lit : Option LitKind
deriving DecidableEq, Repr

/-- The kind of an ast::Attribute: a normal attribute with a path of
segments, or a doc comment (the non-Normal case of AttrKind). -/
inductive AttrKind where
  | normal (segments : List String)
  | docComment
deriving DecidableEq, Repr

/-- An ast::Attribute as used by this slice: its kind (path segments), the
result of meta_item_list(), and an opaque source span identifier. -/
structure Attribute where
  kind : AttrKind
  metaItemList : Option (List MetaItem)
  span : Nat
deriving DecidableEq, Repr

/-- Translation of kanitool_attr_name: if the attribute is a normal
attribute whose first path segment is "kanitool", return the concatenation
of the remaining segment strings. -/
def kanitool_attr_name (attr : Attribute) : Option String :=
  match attr.kind with
  | AttrKind.normal segments =>
    match segments with
    | [] => none
    | s0 :: rest => if s0 = "kanitool" then some (String.join rest) else none
  | AttrKind.docComment => none

/-- Translation of extract_integer_argument: require meta_item_list() to be
present with exactly one element, and that element to be an integer
literal; return its value. -/
def extract_integer_argument (attr : Attribute) : Option Nat :=
  match attr.metaItemList with
  | none => none
  | some attr_args =>
    if attr_args.length = 1 then
      match attr_args.head? with
      | some a =>
        match a.lit with
        | some (LitKind.int y) => some y
        | _ => none
      | none => none
    else none

/-- Harness metadata record, as in context::metadata::HarnessMetadata. The
unwind value is a u32 in the source; its numeric value is carried as a Nat
(the code guarantees it is below the u32 bound before storing). -/
structure HarnessMetadata where
  pretty_name : String
  mangled_name : String
  original_file : String
  original_line : String
  unwind_value : Option Nat
deriving DecidableEq, Repr

/-- One user-facing diagnostic emitted through sess.span_err: the offending
span and the message. -/
structure Diag where
  span : Nat
  msg : String
deriving DecidableEq, Repr

/-- Translation of handle_kanitool_unwind. The fatal assert! on values not
below u32::MAX is modelled as Except.error carrying the assertion message;
recoverable diagnostics are returned alongside the (possibly updated)
harness. -/
def handle_kanitool_unwind (attr : Attribute) (harness : HarnessMetadata) :
    Except String (HarnessMetadata × List Diag) :=
  if harness.unwind_value = none then
    match extract_integer_argument attr with
    | some integer_value =>
      if integer_value < 4294967295 then
        Except.ok ({ harness with unwind_value := some integer_value }, [])
      else
        Except.error "Value above maximum permitted value - u32::MAX"
    | none =>
      Except.ok (harness, [⟨attr.span, "Exactly one Unwind Argument as Integer accepted"⟩])
  else
    Except.ok (harness, [⟨attr.span, "Use only one Unwind Annotation per Harness"⟩])

/-- MIR-level types as far as this slice inspects them: tuples (with their
ordered component types), plain function items and function pointers (with
their input types, as exposed by fn_sig), closures, and everything else. -/
inductive Ty where
  | tuple (components : List Ty)
  | fnDef (inputs : List Ty)
  | fnPtr (inputs : List Ty)
  | closure
  | otherTy (id : Nat)

/-- Target-IR (gotoc) types as far as this slice inspects them: struct
types carry their field names in physical layout order (which the target
may have reordered for packing); everything else is opaque. -/
inductive CTy where
  | structT (fieldNames : List String)
  | prim (id : Nat)
deriving DecidableEq, Repr

/-- Target-IR expressions as far as this slice builds them: symbol
references and struct aggregates (operands in layout order). -/
inductive Expr where
  | symbolE (name : String)
  | structE (vals : List Expr)

/-- Target-IR statements as far as this slice builds them: declarations
(with optional initializer), the fatal-unsupported statement produced by
codegen_fatal_error, compound blocks, and opaque statements produced by the
external block translator. -/
inductive Stmt where
  | decl (sym : Expr) (init : Option Expr) (loc : SpanInfo)
  | fatalUnsupported (msg : String) (loc : Option SpanInfo)
  | block (stmts : List Stmt) (loc : SpanInfo)
  | opaqueStmt (id : Nat)

/-- The value slot of a cbmc Symbol: none while only declared, or a
statement body once defined (this slice only ever installs statement
bodies on function symbols). -/
inductive SymValue where
  | noneV
  | stmtV (s : Stmt)

/-- A cbmc symbol-table entry as far as this slice reads and writes it. -/
structure Symbol where
  name : String
  base_name : Option String
  pretty_name : Option String
  typ : CTy
  location : SpanInfo
  is_hidden : Bool
  is_fn : Bool
  value : SymValue

/-- Constructor mirroring cbmc Symbol::variable. -/
def Symbol.variable (name base_name : String) (t : CTy) (loc : SpanInfo) : Symbol :=
  { name := name, base_name := some base_name, pretty_name := none, typ := t,
    location := loc, is_hidden := false, is_fn := false, value := SymValue.noneV }

/-- Mirror of cbmc Symbol::with_is_hidden. -/
def Symbol.with_is_hidden (s : Symbol) (h : Bool) : Symbol := { s with is_hidden := h }

/-- Mirror of cbmc Symbol::is_function_definition: a function symbol whose
value slot is filled. -/
def Symbol.is_function_definition (s : Symbol) : Bool :=
  s.is_fn && (match s.value with | SymValue.noneV => false | SymValue.stmtV _ => true)

/-- The symbol table: name-keyed entries, sequential single-writer. -/
abbrev SymbolTable := List (String × Symbol)

/-- Name lookup in the symbol table. -/
def st_lookup : SymbolTable → String → Option Symbol
  | [], _ => none
  | (k, s) :: rest, n => if k = n then some s else st_lookup rest n

/-- Overwrite-or-insert of a symbol under its own name (cbmc
SymbolTable::insert; last writer wins). -/
def st_insert : SymbolTable → Symbol → SymbolTable
  | [], s => [(s.name, s)]
  | (k, s0) :: rest, s => if k = s.name then (k, s) :: rest else (k, s0) :: st_insert rest s

/-- Mirror of cbmc update_fn_declaration_with_definition: fill the named
symbol's value slot with the given body. -/
def st_update_fn_def : SymbolTable → String → Stmt → SymbolTable
  | [], _, _ => []
  | (k, s0) :: rest, n, body =>
    if k = n then (k, { s0 with value := SymValue.stmtV body }) :: rest
    else (k, s0) :: st_update_fn_def rest n body

/-- One MIR local declaration as this slice reads it: its (monomorphized)
type, its resolved source location (codegen_span of its span), and the
is_user_variable flag. -/
structure LocalDecl where
  ty : Ty
  loc : SpanInfo
  is_user_variable : Bool

/-- The MIR body of the current function as this slice reads it: local
declarations in index order, the declared-argument count, the optional
spread-argument local index, opaque basic-block identifiers in program
order, and the function's resolved span. -/
structure Mir where
  local_decls : List LocalDecl
  arg_count : Nat
  spread_arg : Option Nat
  basic_blocks : List Nat
  span_loc : SpanInfo

/-- One resolved function instance as consumed by this slice: mangled name
(symbol-table key), human-readable display name, MIR body, the instance's
pre-untupling type, and the attributes on its definition. -/
structure FnInfo where
  name : String
  readable_name : String
  mir : Mir
  fntyp : Ty
  attrs : List Attribute

/-- The mutable translation-pass state this slice touches: symbol table,
harness registry, emitted diagnostics, and logged warnings. -/
structure TransCtx where
  symbol_table : SymbolTable
  proof_harnesses : List HarnessMetadata
  diags : List Diag
  warnings : List String

/-- The attribute-collection loop of handle_kanitool_attributes: walk the
attributes in scan order, keep those with a kanitool name, and split them
into the proof_attribute_vector and the attribute_vector (name paired with
the attribute), both in scan order. -/
def scan_kanitool_attrs : List Attribute → List Attribute × List (String × Attribute)
  | [] => ([], [])
  | attr :: rest =>
    let acc := scan_kanitool_attrs rest
    match kanitool_attr_name attr with
    | some s =>
      if s = "proof" then (attr :: acc.1, acc.2)
      else (acc.1, (s, attr) :: acc.2)
    | none => acc

/-- Translation of handle_kanitool_proof: build the harness record for the
current function from its names and its resolved span (the span resolver
codegen_span is the external black box returning file and line). -/
def handle_kanitool_proof (fn : FnInfo) : HarnessMetadata :=
  { pretty_name := fn.readable_name
    mangled_name := fn.name
    original_file := fn.mir.span_loc.filename
    original_line := Nat.repr fn.mir.span_loc.line
    unwind_value := none }

/-- The modifier loop of handle_kanitool_attributes: apply each collected
non-proof kanitool attribute in scan order; only "unwind" is acted on, any
other name falls through the match arm for wildcards and is ignored. -/
def apply_modifiers : List (String × Attribute) → HarnessMetadata →
    Except String (HarnessMetadata × List Diag)
  | [], h => Except.ok (h, [])
  | (s, attr) :: rest, h =>
    if s = "unwind" then
      match handle_kanitool_unwind attr h with
      | Except.ok hd =>
        match apply_modifiers rest hd.1 with
        | Except.ok hd2 => Except.ok (hd2.1, hd.2 ++ hd2.2)
        | Except.error e => Except.error e
      | Except.error e => Except.error e
    else apply_modifiers rest h

/-- Translation of handle_kanitool_attributes: scan the function's
attributes, then branch on the cardinality of the proof vector exactly as
the source does (1: build and push a harness after applying modifiers;
more than 1: error at the first proof attribute; 0 with modifiers present:
error at the first modifier; otherwise do nothing). -/
def handle_kanitool_attributes (fn : FnInfo) (ctx : TransCtx) : Except String TransCtx :=
  let scanned := scan_kanitool_attrs fn.attrs
  match scanned.1, scanned.2 with
  | [_], attribute_vector =>
    match apply_modifiers attribute_vector (handle_kanitool_proof fn) with
    | Except.ok hd =>
      Except.ok { ctx with proof_harnesses := ctx.proof_harnesses ++ [hd.1],
                           diags := ctx.diags ++ hd.2 }
    | Except.error e => Except.error e
  | p0 :: _ :: _, _ =>
    Except.ok { ctx with diags := ctx.diags ++ [⟨p0.span, "Only one Proof Attribute allowed"⟩] }
  | [], (_, a0) :: _ =>
    Except.ok { ctx with diags :=
      ctx.diags ++ [⟨a0.span, "Please use \x27#kani[proof]\x27 above the annotation"⟩] }
  | [], [] => Except.ok ctx

/-- Character-list prefix test, the semantics of str prefix matching. -/
def charsPrefix : List Char → List Char → Bool
  | [], _ => true
  | _ :: _, [] => false
  | a :: as, b :: bs => decide (a = b) && charsPrefix as bs

/-- Translation of str::starts_with on the underlying character list. -/
def str_starts_with (s pat : String) : Bool := charsPrefix pat.data s.data

/-- Translation of str::ends_with on the underlying character list. -/
def str_ends_with (s pat : String) : Bool := charsPrefix pat.data.reverse s.data.reverse

/-- Substring occurrence test on character lists: the pattern is a prefix
of some suffix. -/
def charsInfix (pat : List Char) : List Char → Bool
  | [] => charsPrefix pat []
  | c :: rest => charsPrefix pat (c :: rest) || charsInfix pat rest

/-- Translation of str::contains on the underlying character list. -/
def contains_substr (s pat : String) : Bool := charsInfix pat.data s.data

/-- Translation of should_skip_current_fn: the fixed match over the
function's readable name, rule by rule in source order. -/
def should_skip_current_fn (readable_name : String) : Bool :=
  if readable_name = "fmt::ArgumentV1::<\x27a>::as_usize" then true
  else if str_ends_with readable_name "__getit" then true
  else if str_starts_with readable_name "bridge::client" then true
  else if readable_name = "bridge::closure::Closure::<\x27a, A, R>::call" then true
  else if str_starts_with readable_name "<std::future::from_generator::GenFuture<T>" then true
  else if contains_substr readable_name "reusable_box::ReusableBoxFuture" then true
  else if readable_name = "tokio::sync::Semaphore::acquire_owned::\x7bclosure#0\x7d" then true
  else false

/-- Modelled from the spec: codegen_var_name lives outside this excerpt;
every local slot's synthesized symbol gets a unique mangled name scoped by
the function's mangled name. -/
def codegen_var_name (fname : String) (lc : Nat) : String :=
  fname ++ "::var_" ++ Nat.repr lc

/-- Modelled from the spec: per-slot display base name (outside this
excerpt). -/
def codegen_var_base_name (lc : Nat) : String :=
  "var_" ++ Nat.repr lc

/-- Modelled from the spec and the source comments: synthesized spread
parameters follow the spread-i naming convention defined in typ.rs
(outside this excerpt); returns the pair (mangled name, base name). -/
def codegen_spread_arg_name (fname : String) (lc : Nat) : String × String :=
  (fname ++ "::spread_" ++ Nat.repr lc, "spread_" ++ Nat.repr lc)

/-- Modelled from the spec: monomorphize substitutes the instance's generic
parameters; an Instance is fully resolved, so on this model of
already-substituted types the operation is the identity. -/
def monomorphize (t : Ty) : Ty := t

/-- Modelled from the spec: unsupported_msg (outside this excerpt) builds a
deterministic message embedding the operation string. -/
def unsupported_msg (op : String) : String :=
  op ++ " is not currently supported by kani"

/-- Modelled from the spec: codegen_fatal_error (outside this excerpt)
produces the single deterministic fatal-unsupported statement carrying the
message and the optional source location. -/
def codegen_fatal_error (msg : String) (loc : Option SpanInfo) : Stmt :=
  Stmt.fatalUnsupported msg loc

/-- One iteration of the codegen_declare_variables loop, on the local slot
with index p.1 and declaration p.2, threading the symbol table and the
current statement block. -/
def declare_var_step (cg : Ty → CTy) (fn : FnInfo) (acc : SymbolTable × List Stmt)
    (p : Nat × LocalDecl) : SymbolTable × List Stmt :=
  if some p.1 = fn.mir.spread_arg then acc
  else
    let base_name := codegen_var_base_name p.1
    let name := codegen_var_name fn.name p.1
    let t := cg (monomorphize p.2.ty)
    let loc := p.2.loc
    let sym := (Symbol.variable name base_name t loc).with_is_hidden (!p.2.is_user_variable)
    let st1 := st_insert acc.1 sym
    if p.1 < 1 ∨ p.1 > fn.mir.arg_count then
      (st1, acc.2 ++ [Stmt.decl (Expr.symbolE name) none loc])
    else
      (st1, acc.2)

/-- Translation of codegen_declare_variables: fold the per-slot step over
all local slots in index order. The type-lowering function cg models the
external codegen_ty. -/
def codegen_declare_variables (cg : Ty → CTy) (fn : FnInfo) (st : SymbolTable)
    (blk : List Stmt) : SymbolTable × List Stmt :=
  (fn.mir.local_decls.enum).foldl (declare_var_step cg fn) (st, blk)

/-- Field-name list of a target struct type, if it is one. -/
def ctyFields : CTy → Option (List String)
  | CTy.structT fieldNames => some fieldNames
  | CTy.prim _ => none

/-- First-match association lookup; the marshalling map is only built with
pairwise-distinct keys, where this coincides with BTreeMap lookup. -/
def assoc_lookup : List (String × Expr) → String → Option Expr
  | [], _ => none
  | (k, v) :: rest, key => if k = key then some v else assoc_lookup rest key

/-- Modelled from the spec: cbmc Expr::struct_expr (outside this excerpt)
takes the struct type and a name-to-value map and orders the operands by
the type's field layout order, addressing each field by name; a missing
name is a failure there, modelled as none. -/
def struct_expr_fields : List String → List (String × Expr) → Option (List Expr)
  | [], _ => some []
  | f :: fs, m =>
    match assoc_lookup m f, struct_expr_fields fs m with
    | some v, some vs => some (v :: vs)
    | _, _ => none

/-- Modelled from the spec: retrieving a struct field by name takes the
operand at the position of that name in the layout order. -/
def struct_member : List String → List Expr → String → Option Expr
  | f :: fs, v :: vs, k => if f = k then some v else struct_member fs vs k
  | _, _, _ => none

/-- Modelled from the spec: GotocCtx::declare_variable (outside this
excerpt) inserts the freshly built variable symbol into the symbol table
and emits its declaration statement with the given initializer. -/
def declare_variable (name base_name : String) (t : CTy) (init : Option Expr)
    (loc : SpanInfo) (st : SymbolTable) : SymbolTable × Stmt :=
  (st_insert st (Symbol.variable name base_name t loc),
   Stmt.decl (Expr.symbolE name) init loc)

/-- The per-component synthesis step of codegen_function_prelude's map:
for component p (original index, component type) build the spread
parameter symbol (named by the spread convention at position index plus
starting offset) and the marshalled pair keyed by the stringified
original index. -/
def spread_component (cg : Ty → CTy) (fname : String) (starting_idx : Nat)
    (loc : SpanInfo) (p : Nat × Ty) : Symbol × (String × Expr) :=
  let lc := p.1 + starting_idx
  let nb := codegen_spread_arg_name fname lc
  let sym := (Symbol.variable nb.1 nb.2 (cg p.2) loc).with_is_hidden false
  (sym, (Nat.repr p.1, Expr.symbolE nb.1))

/-- The body of codegen_function_prelude once the signature's input types
are in hand: check the last input is a tuple, synthesize one spread
parameter symbol per component at positions starting after the declared
inputs, build the name-addressed marshalled aggregate, and declare the
spread local with it as initializer. -/
def codegen_prelude_core (cg : Ty → CTy) (fn : FnInfo) (st : SymbolTable)
    (loc : SpanInfo) (spread_arg : Nat) (spread_data : LocalDecl)
    (inputs : List Ty) : Except String (SymbolTable × List Stmt) :=
  let tup_typ := cg (monomorphize spread_data.ty)
  match inputs.getLast? with
  | none => Except.error "spread function has no parameters"
  | some tupe =>
    match tupe with
    | Ty.tuple args =>
      let starting_idx := inputs.length
      let news := args.enum.map (spread_component cg fn.name starting_idx loc)
      let st1 := news.foldl (fun s q => st_insert s q.1) st
      let marshalled_tuple_fields := news.map (fun q => q.2)
      match ctyFields tup_typ with
      | none => Except.error "tuple target type is not a struct"
      | some layout =>
        match struct_expr_fields layout marshalled_tuple_fields with
        | none => Except.error "struct_expr missing field"
        | some vals =>
          let dv := declare_variable (codegen_var_name fn.name spread_arg)
                      (codegen_var_base_name spread_arg) tup_typ
                      (some (Expr.structE vals)) loc st1
          Except.ok (dv.1, [dv.2])
    | _ => Except.error "a function spread argument must be a tuple"

/-- Translation of codegen_function_prelude: no-op without a spread
argument; otherwise fetch the pre-untupling signature (a closure type or a
non-function type is a fatal internal inconsistency, modelled as error)
and run the marshalling core. -/
def codegen_function_prelude (cg : Ty → CTy) (fn : FnInfo) (st : SymbolTable) :
    Except String (SymbolTable × List Stmt) :=
  match fn.mir.spread_arg with
  | none => Except.ok (st, [])
  | some spread_arg =>
    match fn.mir.local_decls.get? spread_arg with
    | none => Except.error "spread_arg local out of range"
    | some spread_data =>
      let loc := spread_data.loc
      match fn.fntyp with
      | Ty.closure => Except.error "Unexpected spread arg set for closure"
      | Ty.fnDef inputs => codegen_prelude_core cg fn st loc spread_arg spread_data inputs
      | Ty.fnPtr inputs => codegen_prelude_core cg fn st loc spread_arg spread_data inputs
      | _ => Except.error "Expected function type for spread arg prelude"

/-- Translation of codegen_function, the orchestration entry point: look up
the pre-declared symbol (absence is fatal), warn and do nothing more on
double codegen, install the fatal-unsupported body on the filtered (stub)
path, and otherwise run prelude, variable materialization, per-block
translation (the external block translator bt), install the concatenated
block as the body, and only then run attribute handling. The per-function
current-fn context is modelled by explicit state threading, so it is
released on every exit path by construction. -/
def codegen_function (cg : Ty → CTy) (bt : Nat → List Stmt) (fn : FnInfo)
    (ctx : TransCtx) : Except String TransCtx :=
  let name := fn.name
  match st_lookup ctx.symbol_table name with
  | none => Except.error "symbol table lookup failed for function"
  | some old_sym =>
    if old_sym.is_function_definition then
      Except.ok { ctx with warnings := ctx.warnings ++ ["Double codegen of " ++ name] }
    else if should_skip_current_fn fn.readable_name then
      let body := codegen_fatal_error
        (unsupported_msg ("The function " ++ fn.readable_name)) (some fn.mir.span_loc)
      Except.ok { ctx with symbol_table := st_update_fn_def ctx.symbol_table name body }
    else if !old_sym.is_fn then
      Except.error "assertion failed: old_sym.is_function()"
    else
      match codegen_function_prelude cg fn ctx.symbol_table with
      | Except.error e => Except.error e
      | Except.ok sb =>
        let sb2 := codegen_declare_variables cg fn sb.1 sb.2
        let stmts := sb2.2 ++ (fn.mir.basic_blocks.map bt).flatten
        let body := Stmt.block stmts fn.mir.span_loc
        handle_kanitool_attributes fn
          { ctx with symbol_table := st_update_fn_def sb2.1 name body }

/-- An attribute is a proof marker when its kanitool name is "proof". -/
def is_proof_marker (a : Attribute) : Bool :=
  decide (kanitool_attr_name a = some "proof")

/-- Keep attributes that are either not kanitool attributes at all or carry
one of the two recognized kanitool names; dropping the rest removes
exactly the unrecognized kanitool attributes. -/
def keep_recognized (a : Attribute) : Bool :=
  match kanitool_attr_name a with
  | some s => decide (s = "proof") || decide (s = "unwind")
  | none => true

/-- Match kinds of the Unsupported-Construct Filter rules, as the spec
describes them: exact, suffix, prefix and substring matching. -/
inductive FilterKind where
  | exactMatch
  | suffixMatch
  | prefixMatch
  | substringMatch
deriving DecidableEq, Repr

/-- One rule of the Unsupported-Construct Filter table: a match kind and a
pattern string. -/
structure FilterRule where
  kind : FilterKind
  pattern : String
deriving DecidableEq, Repr

/-- The fixed, ordered rule table of the Unsupported-Construct Filter,
stated from the spec's description of 4.1 in source order. -/
def filter_table : List FilterRule :=
  [⟨FilterKind.exactMatch, "fmt::ArgumentV1::<\x27a>::as_usize"⟩,
   ⟨FilterKind.suffixMatch, "__getit"⟩,
   ⟨FilterKind.prefixMatch, "bridge::client"⟩,
   ⟨FilterKind.exactMatch, "bridge::closure::Closure::<\x27a, A, R>::call"⟩,
   ⟨FilterKind.prefixMatch, "<std::future::from_generator::GenFuture<T>"⟩,
   ⟨FilterKind.substringMatch, "reusable_box::ReusableBoxFuture"⟩,
   ⟨FilterKind.exactMatch, "tokio::sync::Semaphore::acquire_owned::\x7bclosure#0\x7d"⟩]

/-- Whether one filter rule matches a display name. -/
def rule_matches (name : String) (r : FilterRule) : Bool :=
  match r.kind with
  | FilterKind.exactMatch => decide (name = r.pattern)
  | FilterKind.suffixMatch => str_ends_with name r.pattern
  | FilterKind.prefixMatch => str_starts_with name r.pattern
  | FilterKind.substringMatch => contains_substr name r.pattern

/-- The spec-side classifier: a display name is unsupported when some rule
of the fixed table matches it (with a Bool result, first-match-wins and
any-match coincide); no match means supported. -/
def filter_classifies (name : String) : Bool :=
  filter_table.any (rule_matches name)

/-- Decode a digit character back to its value. -/
def charVal (c : Char) : Nat := c.toNat - 48

/-- Decode the big-endian decimal digit string produced by Nat.toDigits
back to the number; used to show that stringified indices are injective
keys. -/
def decodeDigits (cs : List Char) : Nat :=
  Nat.ofDigits 10 ((cs.map charVal).reverse)

/-- The condition under which the codegen_declare_variables loop emits a
declaration statement for the local slot p: the slot is not the spread
argument, and its index is the return slot (index 0) or lies beyond the
declared-argument range. -/
def emits_decl (fn : FnInfo) (p : Nat × LocalDecl) : Bool :=
  !decide (some p.1 = fn.mir.spread_arg) &&
    (decide (p.1 < 1) || decide (p.1 > fn.mir.arg_count))

/-- The declaration statement the materializer emits for local slot p. -/
def decl_stmt_of (fn : FnInfo) (p : Nat × LocalDecl) : Stmt :=
  Stmt.decl (Expr.symbolE (codegen_var_name fn.name p.1)) none p.2.loc

/-- A declaration-only function symbol named "m" for concrete runs. -/
def exSymM : Symbol :=
  { name := "m", base_name := none, pretty_name := some "foo__getit", typ := CTy.prim 0,
    location := ⟨"a.rs", 3⟩, is_hidden := false, is_fn := true, value := SymValue.noneV }

/-- A filtered instance (display name ends in __getit) named "m" carrying
one proof-marker attribute, for concrete runs. -/
def exFnSkip : FnInfo :=
  { name := "m", readable_name := "foo__getit",
    mir := { local_decls := [], arg_count := 0, spread_arg := none,
             basic_blocks := [], span_loc := ⟨"a.rs", 3⟩ },
    fntyp := Ty.otherTy 0,
    attrs := [⟨AttrKind.normal ["kanitool", "proof"], none, 9⟩] }

/-- A pass state holding only the declared symbol for "m". -/
def exCtxM : TransCtx :=
  { symbol_table := [("m", exSymM)], proof_harnesses := [], diags := [], warnings := [] }

/-- A trivial external type lowering for concrete runs. -/
def exCg : Ty → CTy := fun _ => CTy.prim 0

/-- A trivial external block translator for concrete runs. -/
def exBt : Nat → List Stmt := fun _ => []

/-- A declaration-only function symbol named "g" for concrete runs. -/
def exSymG : Symbol :=
  { name := "g", base_name := none, pretty_name := some "g", typ := CTy.prim 0,
    location := ⟨"b.rs", 1⟩, is_hidden := false, is_fn := true, value := SymValue.noneV }

/-- An ordinary unfiltered instance named "g" with one local slot (the
return slot), no spread argument and no attributes, for concrete runs. -/
def exFnFull : FnInfo :=
  { name := "g", readable_name := "g",
    mir := { local_decls := [⟨Ty.otherTy 0, ⟨"b.rs", 2⟩, false⟩], arg_count := 0,
             spread_arg := none, basic_blocks := [0], span_loc := ⟨"b.rs", 1⟩ },
    fntyp := Ty.otherTy 0, attrs := [] }

/-- A pass state holding only the declared symbol for "g". -/
def exCtxG : TransCtx :=
  { symbol_table := [("g", exSymG)], proof_harnesses := [], diags := [], warnings := [] }

/-- An instance named "f" whose only local slot is the return slot, with no
declared arguments, for concrete runs. -/
def exFnRet : FnInfo :=
  { name := "f", readable_name := "f",
    mir := { local_decls := [⟨Ty.otherTy 0, ⟨"c.rs", 2⟩, false⟩], arg_count := 0,
             spread_arg := none, basic_blocks := [], span_loc := ⟨"c.rs", 1⟩ },
    fntyp := Ty.otherTy 0, attrs := [] }

/-- A type lowering mapping any tuple type to a struct whose two fields
are laid out in swapped order, for concrete runs. -/
def exCgSwap : Ty → CTy :=
  fun t => match t with
  | Ty.tuple _ => CTy.structT ["1", "0"]
  | _ => CTy.prim 0

/-- A spread-argument instance named "h": two declared inputs, the last a
two-component tuple, spread slot at local index 2, for concrete runs. -/
def exFnSpread : FnInfo :=
  { name := "h", readable_name := "h",
    mir := { local_decls := [⟨Ty.otherTy 0, ⟨"d.rs", 1⟩, false⟩,
                             ⟨Ty.otherTy 9, ⟨"d.rs", 2⟩, false⟩,
                             ⟨Ty.tuple [Ty.otherTy 1, Ty.otherTy 2], ⟨"d.rs", 4⟩, false⟩],
             arg_count := 2, spread_arg := some 2, basic_blocks := [],
             span_loc := ⟨"d.rs", 1⟩ },
    fntyp := Ty.fnDef [Ty.otherTy 9, Ty.tuple [Ty.otherTy 1, Ty.otherTy 2]],
    attrs := [] }

/-- The pass state after translating exFnFull from exCtxG, used as the
concrete input of a re-entry run. -/
def exCtxG1 : TransCtx :=
  (codegen_function exCg exBt exFnFull exCtxG).toOption.getD exCtxG

/-! Theorems settling the claims, preceded by shared helper lemmas. -/

/-- Boolean reading of an if-then-else with true in the then branch. -/
theorem ite_true_or (c : Prop) [Decidable c] (b : Bool) :
    (if c then true else b) = (decide c || b) := by
  by_cases h : c <;> simp [h]

/-- The proof vector collected by the attribute scan is the sublist of
attributes whose kanitool name is "proof", in scan order. -/
theorem scan_fst_eq_filter (attrs : List Attribute) :
    (scan_kanitool_attrs attrs).1 = attrs.filter is_proof_marker := by
  induction attrs with
  | nil => rfl
  | cons a rest ih =>
    unfold scan_kanitool_attrs
    cases h : kanitool_attr_name a with
    | none =>
      have hp : is_proof_marker a = false := by simp [is_proof_marker, h]
      simp [List.filter_cons, hp, ih]
    | some s =>
      by_cases hs : s = "proof"
      · subst hs
        have hp : is_proof_marker a = true := by simp [is_proof_marker, h]
        simp [List.filter_cons, hp, ih]
      · have hp : is_proof_marker a = false := by simp [is_proof_marker, h, hs]
        simp [List.filter_cons, hp, hs, ih]

/-- The modifier loop ignores entries whose name is not "unwind": deleting
them does not change its result. -/
theorem apply_modifiers_ignores_non_unwind (mods : List (String × Attribute))
    (h : HarnessMetadata) :
    apply_modifiers mods h =
      apply_modifiers (mods.filter (fun q => decide (q.1 = "unwind"))) h := by
  induction mods generalizing h with
  | nil => rfl
  | cons m rest ih =>
    obtain ⟨s, a⟩ := m
    by_cases hs : s = "unwind"
    · subst hs
      have hfil : ((("unwind", a) :: rest).filter (fun q => decide (q.1 = "unwind"))) =
          ("unwind", a) :: rest.filter (fun q => decide (q.1 = "unwind")) := by
        simp [List.filter_cons]
      rw [hfil]
      show (if ("unwind" : String) = "unwind" then _ else _) =
        (if ("unwind" : String) = "unwind" then _ else _)
      rw [if_pos rfl, if_pos rfl]
      simp only [ih]
    · have hfil : (((s, a) :: rest).filter (fun q => decide (q.1 = "unwind"))) =
          rest.filter (fun q => decide (q.1 = "unwind")) := by
        simp [List.filter_cons, hs]
      rw [hfil]
      show (if s = "unwind" then _ else _) = _
      rw [if_neg hs]
      exact ih h

/-- Filtering a function's attributes down to the recognized kanitool
names (and all non-kanitool attributes) keeps the proof vector unchanged
and keeps exactly the unwind entries of the modifier vector. -/
theorem scan_filter_keep_recognized (attrs : List Attribute) :
    scan_kanitool_attrs (attrs.filter keep_recognized) =
      ((scan_kanitool_attrs attrs).1,
       (scan_kanitool_attrs attrs).2.filter (fun q => decide (q.1 = "unwind"))) := by
  induction attrs with
  | nil => rfl
  | cons a rest ih =>
    cases h : kanitool_attr_name a with
    | none =>
      have hk : keep_recognized a = true := by simp [keep_recognized, h]
      have hfil : (a :: rest).filter keep_recognized = a :: rest.filter keep_recognized := by
        simp [List.filter_cons, hk]
      rw [hfil]
      simp [scan_kanitool_attrs, h, ih]
    | some s =>
      by_cases hp : s = "proof"
      · subst hp
        have hk : keep_recognized a = true := by simp [keep_recognized, h]
        have hfil : (a :: rest).filter keep_recognized = a :: rest.filter keep_recognized := by
          simp [List.filter_cons, hk]
        rw [hfil]
        simp [scan_kanitool_attrs, h, ih]
      · by_cases hu : s = "unwind"
        · subst hu
          have hk : keep_recognized a = true := by simp [keep_recognized, h]
          have hfil : (a :: rest).filter keep_recognized = a :: rest.filter keep_recognized := by
            simp [List.filter_cons, hk]
          rw [hfil]
          simp [scan_kanitool_attrs, h, hp, ih]
        · have hk : keep_recognized a = false := by simp [keep_recognized, h, hp, hu]
          have hfil : (a :: rest).filter keep_recognized = rest.filter keep_recognized := by
            simp [List.filter_cons, hk]
          rw [hfil, ih]
          simp [scan_kanitool_attrs, h, hp, hu, List.filter_cons]

/-- C7: a function carrying more than one proof-marker attribute yields no
harness record and exactly one user-error diagnostic, located at the first
proof marker's span, whatever modifier attributes are present. -/
theorem multiple_proof_markers_single_diag
    (fn : FnInfo) (ctx : TransCtx) (p0 p1 : Attribute) (ps : List Attribute)
    (hpv : fn.attrs.filter is_proof_marker = p0 :: p1 :: ps) :
    handle_kanitool_attributes fn ctx =
      Except.ok { ctx with diags :=
        ctx.diags ++ [⟨p0.span, "Only one Proof Attribute allowed"⟩] } := by
  have h1 : (scan_kanitool_attrs fn.attrs).1 = p0 :: p1 :: ps := by
    rw [scan_fst_eq_filter]; exact hpv
  unfold handle_kanitool_attributes
  simp [h1]

/-- Witness for multiple_proof_markers_single_diag: two proof markers plus
one unwind modifier on the same function. -/
theorem multiple_proof_markers_single_diag_witness :
    handle_kanitool_attributes
      ⟨"m", "f", ⟨[], 0, none, [], ⟨"a.rs", 1⟩⟩, Ty.otherTy 0,
        [⟨AttrKind.normal ["kanitool", "proof"], none, 1⟩,
         ⟨AttrKind.normal ["kanitool", "unwind"], some [⟨some (LitKind.int 3)⟩], 2⟩,
         ⟨AttrKind.normal ["kanitool", "proof"], none, 3⟩]⟩
      ⟨[], [], [], []⟩ =
      Except.ok ⟨[], [], [⟨1, "Only one Proof Attribute allowed"⟩], []⟩ :=
  multiple_proof_markers_single_diag
    ⟨"m", "f", ⟨[], 0, none, [], ⟨"a.rs", 1⟩⟩, Ty.otherTy 0,
      [⟨AttrKind.normal ["kanitool", "proof"], none, 1⟩,
       ⟨AttrKind.normal ["kanitool", "unwind"], some [⟨some (LitKind.int 3)⟩], 2⟩,
       ⟨AttrKind.normal ["kanitool", "proof"], none, 3⟩]⟩
    ⟨[], [], [], []⟩
    ⟨AttrKind.normal ["kanitool", "proof"], none, 1⟩
    ⟨AttrKind.normal ["kanitool", "proof"], none, 3⟩ [] rfl

/-- C8: applying an unwind modifier to a harness whose unwind bound is
already set reports exactly one user-error diagnostic at that modifier's
span and returns the harness unchanged, so the first bound value is
retained. -/
theorem second_unwind_modifier_keeps_first_bound
    (attr : Attribute) (harness : HarnessMetadata) (v : Nat)
    (h : harness.unwind_value = some v) :
    handle_kanitool_unwind attr harness =
      Except.ok (harness, [⟨attr.span, "Use only one Unwind Annotation per Harness"⟩]) := by
  unfold handle_kanitool_unwind
  simp [h]

/-- Witness for second_unwind_modifier_keeps_first_bound at a concrete
attribute and harness carrying the bound 10. -/
theorem second_unwind_modifier_keeps_first_bound_witness :
    handle_kanitool_unwind
      ⟨AttrKind.normal ["kanitool", "unwind"], some [⟨some (LitKind.int 3)⟩], 42⟩
      ⟨"f", "m", "a.rs", "7", some 10⟩ =
      Except.ok (⟨"f", "m", "a.rs", "7", some 10⟩,
        [⟨42, "Use only one Unwind Annotation per Harness"⟩]) :=
  second_unwind_modifier_keeps_first_bound _ _ 10 rfl

/-- C9: an unwind modifier whose argument list does not hold exactly one
integer literal (extract_integer_argument returns none) reports one
user-error diagnostic at the attribute's span and returns the harness
unchanged, so the bound stays unset. -/
theorem malformed_unwind_argument_leaves_bound_unset
    (attr : Attribute) (harness : HarnessMetadata)
    (hnone : harness.unwind_value = none)
    (hbad : extract_integer_argument attr = none) :
    handle_kanitool_unwind attr harness =
      Except.ok (harness, [⟨attr.span, "Exactly one Unwind Argument as Integer accepted"⟩]) := by
  unfold handle_kanitool_unwind
  simp [hnone, hbad]

/-- Witness for malformed_unwind_argument_leaves_bound_unset at a concrete
attribute with two arguments. -/
theorem malformed_unwind_argument_leaves_bound_unset_witness :
    handle_kanitool_unwind
      ⟨AttrKind.normal ["kanitool", "unwind"],
        some [⟨some (LitKind.int 3)⟩, ⟨some (LitKind.int 4)⟩], 11⟩
      ⟨"f", "m", "a.rs", "7", none⟩ =
      Except.ok (⟨"f", "m", "a.rs", "7", none⟩,
        [⟨11, "Exactly one Unwind Argument as Integer accepted"⟩]) :=
  malformed_unwind_argument_leaves_bound_unset _ _ rfl rfl

/-- C3 (code bug): the unwind bound check uses a strict comparison against
u32::MAX, so the in-range value 4294967295 (2^32 - 1, which the claim and
the assertion's own message say is permitted) already triggers the fatal
assertion, while 4294967294 is accepted and stored. -/
theorem unwind_assert_fires_at_u32_max :
    handle_kanitool_unwind
      ⟨AttrKind.normal ["kanitool", "unwind"], some [⟨some (LitKind.int 4294967295)⟩], 7⟩
      ⟨"h", "m", "a.rs", "1", none⟩ =
      Except.error "Value above maximum permitted value - u32::MAX" ∧
    handle_kanitool_unwind
      ⟨AttrKind.normal ["kanitool", "unwind"], some [⟨some (LitKind.int 4294967294)⟩], 7⟩
      ⟨"h", "m", "a.rs", "1", none⟩ =
      Except.ok (⟨"h", "m", "a.rs", "1", some 4294967294⟩, []) := by
  constructor
  · rfl
  · rfl

/-- C4 (counterexample): a single kanitool attribute with the unrecognized
name "foo" and no proof marker on the function does cause a user-error
diagnostic, contradicting the claim that its presence causes no
diagnostic whether or not a proof marker is present. -/
theorem unrecognized_attr_alone_causes_diag :
    handle_kanitool_attributes
      ⟨"m", "f", ⟨[], 0, none, [], ⟨"a.rs", 1⟩⟩, Ty.otherTy 0,
        [⟨AttrKind.normal ["kanitool", "foo"], none, 5⟩]⟩
      ⟨[], [], [], []⟩ =
      Except.ok ⟨[], [], [⟨5, "Please use \x27#kani[proof]\x27 above the annotation"⟩], []⟩ ∧
    ([⟨5, "Please use \x27#kani[proof]\x27 above the annotation"⟩] : List Diag) ≠ [] := by
  exact ⟨rfl, by simp⟩

/-- C4 (amended): unrecognized kanitool attributes never affect the
Harness Registry: when the function carries exactly one proof marker,
deleting every unrecognized kanitool attribute does not change the
outcome of attribute handling at all (no diagnostic, no registry change
from them); but when the function carries no proof marker, any non-proof
kanitool attribute (recognized or not) triggers the proof-marker-missing
diagnostic at the first such attribute's span, with no harness recorded. -/
theorem unrecognized_kanitool_attrs_inert_with_marker :
    (∀ (fn : FnInfo) (ctx : TransCtx) (p : Attribute),
       (scan_kanitool_attrs fn.attrs).1 = [p] →
       handle_kanitool_attributes fn ctx =
         handle_kanitool_attributes { fn with attrs := fn.attrs.filter keep_recognized } ctx) ∧
    (∀ (fn : FnInfo) (ctx : TransCtx) (m0 : String × Attribute)
       (rest : List (String × Attribute)),
       scan_kanitool_attrs fn.attrs = ([], m0 :: rest) →
       handle_kanitool_attributes fn ctx =
         Except.ok { ctx with diags := ctx.diags ++
           [⟨m0.2.span, "Please use \x27#kani[proof]\x27 above the annotation"⟩] }) := by
  constructor
  · intro fn ctx p hpv
    unfold handle_kanitool_attributes
    have hR := scan_filter_keep_recognized fn.attrs
    simp only [hR, hpv]
    rw [apply_modifiers_ignores_non_unwind ((scan_kanitool_attrs fn.attrs).2)
      (handle_kanitool_proof fn)]
    rfl
  · intro fn ctx m0 rest hscan
    unfold handle_kanitool_attributes
    simp [hscan]

/-- Witness for unrecognized_kanitool_attrs_inert_with_marker: one proof
marker plus one unrecognized kanitool attribute named "foo"; deleting the
latter leaves the outcome unchanged. -/
theorem unrecognized_kanitool_attrs_inert_witness :
    handle_kanitool_attributes
      ⟨"m", "f", ⟨[], 0, none, [], ⟨"a.rs", 1⟩⟩, Ty.otherTy 0,
        [⟨AttrKind.normal ["kanitool", "proof"], none, 1⟩,
         ⟨AttrKind.normal ["kanitool", "foo"], none, 5⟩]⟩
      ⟨[], [], [], []⟩ =
      handle_kanitool_attributes
        { (⟨"m", "f", ⟨[], 0, none, [], ⟨"a.rs", 1⟩⟩, Ty.otherTy 0,
            [⟨AttrKind.normal ["kanitool", "proof"], none, 1⟩,
             ⟨AttrKind.normal ["kanitool", "foo"], none, 5⟩]⟩ : FnInfo) with
          attrs := List.filter keep_recognized
            [⟨AttrKind.normal ["kanitool", "proof"], none, 1⟩,
             ⟨AttrKind.normal ["kanitool", "foo"], none, 5⟩] }
        ⟨[], [], [], []⟩ :=
  unrecognized_kanitool_attrs_inert_with_marker.1
    ⟨"m", "f", ⟨[], 0, none, [], ⟨"a.rs", 1⟩⟩, Ty.otherTy 0,
      [⟨AttrKind.normal ["kanitool", "proof"], none, 1⟩,
       ⟨AttrKind.normal ["kanitool", "foo"], none, 5⟩]⟩
    ⟨[], [], [], []⟩
    ⟨AttrKind.normal ["kanitool", "proof"], none, 1⟩ rfl

/-- C6: the source filter coincides with the spec's fixed ordered rule
table (exact, suffix, prefix, substring; pure predicate of the display
name), and a function whose display name it flags, translated from a
declaration-only symbol, gets the single deterministic fatal-unsupported
statement carrying its display name installed as its body, with no basic
block ever translated (the result does not depend on the block
translator). -/
theorem filtered_fn_gets_fatal_stub :
    (∀ nm, filter_classifies nm = should_skip_current_fn nm) ∧
    (∀ (cg : Ty → CTy) (bt bt2 : Nat → List Stmt) (fn : FnInfo) (ctx : TransCtx)
       (sym : Symbol),
       st_lookup ctx.symbol_table fn.name = some sym →
       sym.is_function_definition = false →
       should_skip_current_fn fn.readable_name = true →
       codegen_function cg bt fn ctx =
         Except.ok { ctx with symbol_table := (st_update_fn_def ctx.symbol_table fn.name
           (Stmt.fatalUnsupported
             (unsupported_msg ("The function " ++ fn.readable_name))
             (some fn.mir.span_loc))) } ∧
       codegen_function cg bt fn ctx = codegen_function cg bt2 fn ctx) := by
  constructor
  · intro nm
    simp only [filter_classifies, filter_table, rule_matches, List.any_cons, List.any_nil,
      Bool.or_false, should_skip_current_fn, ite_true_or, Bool.decide_coe]
  · intro cg bt bt2 fn ctx sym hlook hndef hskip
    have key : ∀ bt3 : Nat → List Stmt, codegen_function cg bt3 fn ctx =
        Except.ok { ctx with symbol_table := (st_update_fn_def ctx.symbol_table fn.name
          (Stmt.fatalUnsupported
            (unsupported_msg ("The function " ++ fn.readable_name))
            (some fn.mir.span_loc))) } := by
      intro bt3
      unfold codegen_function
      simp [hlook, hndef, hskip, codegen_fatal_error]
    exact ⟨key bt, (key bt).trans (key bt2).symm⟩

/-- Witness for filtered_fn_gets_fatal_stub: the filtered instance
exFnSkip (its display name ends in __getit) gets the fatal-unsupported
body installed. -/
theorem filtered_fn_gets_fatal_stub_witness :
    codegen_function exCg exBt exFnSkip exCtxM =
      Except.ok { exCtxM with symbol_table := (st_update_fn_def exCtxM.symbol_table "m"
        (Stmt.fatalUnsupported (unsupported_msg ("The function " ++ "foo__getit"))
          (some ⟨"a.rs", 3⟩))) } :=
  (filtered_fn_gets_fatal_stub.2 exCg exBt exBt exFnSkip exCtxM exSymM rfl rfl (by decide)).1

/-- C1 (counterexample): attribute/harness handling does not run on the
stub path: translating the filtered instance exFnSkip, which carries one
proof-marker attribute, leaves the harness registry and the diagnostics
empty, although attribute handling applied to the same instance and state
would append one harness record. -/
theorem attr_handling_skipped_on_stub_path :
    (codegen_function exCg exBt exFnSkip exCtxM).map
      (fun c => (c.proof_harnesses, c.diags)) = Except.ok ([], []) ∧
    (handle_kanitool_attributes exFnSkip exCtxM).map
      (fun c => c.proof_harnesses) =
      Except.ok [⟨"foo__getit", "m", "a.rs", "3", none⟩] :=
  ⟨rfl, rfl⟩

/-- C1 (amended): attribute/harness handling runs on the full-translation
path only: on the stub path the orchestration returns with registry,
diagnostics and warnings untouched (only the symbol table changes), while
on the full path the returned state is exactly the result of attribute
handling applied to the post-body-installation state. -/
theorem attr_handling_full_path_only :
    (∀ (cg : Ty → CTy) (bt : Nat → List Stmt) (fn : FnInfo) (ctx : TransCtx)
       (sym : Symbol),
       st_lookup ctx.symbol_table fn.name = some sym →
       sym.is_function_definition = false →
       should_skip_current_fn fn.readable_name = true →
       ∃ st2, codegen_function cg bt fn ctx =
         Except.ok { symbol_table := st2, proof_harnesses := ctx.proof_harnesses,
                     diags := ctx.diags, warnings := ctx.warnings }) ∧
    (∀ (cg : Ty → CTy) (bt : Nat → List Stmt) (fn : FnInfo) (ctx : TransCtx)
       (sym : Symbol) (sb : SymbolTable × List Stmt),
       st_lookup ctx.symbol_table fn.name = some sym →
       sym.is_function_definition = false →
       should_skip_current_fn fn.readable_name = false →
       sym.is_fn = true →
       codegen_function_prelude cg fn ctx.symbol_table = Except.ok sb →
       codegen_function cg bt fn ctx =
         handle_kanitool_attributes fn
           { ctx with symbol_table :=
               (st_update_fn_def (codegen_declare_variables cg fn sb.1 sb.2).1 fn.name
                 (Stmt.block ((codegen_declare_variables cg fn sb.1 sb.2).2 ++
                   (fn.mir.basic_blocks.map bt).flatten) fn.mir.span_loc)) }) := by
  constructor
  · intro cg bt fn ctx sym hlook hndef hskip
    refine ⟨st_update_fn_def ctx.symbol_table fn.name
      (Stmt.fatalUnsupported (unsupported_msg ("The function " ++ fn.readable_name))
        (some fn.mir.span_loc)), ?_⟩
    unfold codegen_function
    simp [hlook, hndef, hskip, codegen_fatal_error]
  · intro cg bt fn ctx sym sb hlook hndef hskip hisfn hpre
    unfold codegen_function
    simp [hlook, hndef, hskip, hisfn, hpre]

/-- Witness for attr_handling_full_path_only: the stub-path conjunct at the
concrete filtered instance exFnSkip. -/
theorem attr_handling_full_path_only_witness :
    ∃ st2, codegen_function exCg exBt exFnSkip exCtxM =
      Except.ok { symbol_table := st2, proof_harnesses := exCtxM.proof_harnesses,
                  diags := exCtxM.diags, warnings := exCtxM.warnings } :=
  attr_handling_full_path_only.1 exCg exBt exFnSkip exCtxM exSymM rfl rfl (by decide)

/-- Attribute handling never touches the symbol table or the warning log;
it only appends to the registry and the diagnostics. -/
theorem handle_attrs_st_warnings (fn : FnInfo) (c c' : TransCtx)
    (h : handle_kanitool_attributes fn c = Except.ok c') :
    c'.symbol_table = c.symbol_table ∧ c'.warnings = c.warnings := by
  rcases hsc : scan_kanitool_attrs fn.attrs with ⟨pv, mv⟩
  unfold handle_kanitool_attributes at h
  simp only [hsc] at h
  split at h
  · split at h
    · cases h; exact ⟨rfl, rfl⟩
    · cases h
  · cases h; exact ⟨rfl, rfl⟩
  · cases h; exact ⟨rfl, rfl⟩
  · cases h; exact ⟨rfl, rfl⟩

/-- Filling a name's value slot updates exactly that entry, as seen by
lookup. -/
theorem st_lookup_update_self (st : SymbolTable) (n : String) (body : Stmt)
    (s : Symbol) (h : st_lookup st n = some s) :
    st_lookup (st_update_fn_def st n body) n =
      some { s with value := SymValue.stmtV body } := by
  induction st with
  | nil => simp [st_lookup] at h
  | cons e rest ih =>
    obtain ⟨k, s0⟩ := e
    by_cases hk : k = n
    · subst hk
      unfold st_lookup at h
      rw [if_pos rfl] at h
      injection h with h
      subst h
      unfold st_update_fn_def
      rw [if_pos rfl]
      unfold st_lookup
      rw [if_pos rfl]
    · unfold st_lookup at h
      rw [if_neg hk] at h
      unfold st_update_fn_def
      rw [if_neg hk]
      unfold st_lookup
      rw [if_neg hk]
      exact ih h

/-- Inserting a symbol under a different name does not change a lookup. -/
theorem st_lookup_insert_ne (st : SymbolTable) (s : Symbol) (n : String)
    (hne : s.name ≠ n) : st_lookup (st_insert st s) n = st_lookup st n := by
  induction st with
  | nil =>
    unfold st_insert st_lookup
    rw [if_neg (fun hh => hne hh)]
    rfl
  | cons e rest ih =>
    obtain ⟨k, s0⟩ := e
    by_cases hk : k = s.name
    · subst hk
      unfold st_insert
      rw [if_pos rfl]
      unfold st_lookup
      rw [if_neg (fun hh => hne hh), if_neg (fun hh => hne hh)]
    · unfold st_insert
      rw [if_neg hk]
      by_cases hkn : k = n
      · unfold st_lookup
        rw [if_pos hkn, if_pos hkn]
      · unfold st_lookup
        rw [if_neg hkn, if_neg hkn]
        exact ih

/-- A materialized local symbol's name never collides with the enclosing
function's mangled name. -/
theorem codegen_var_name_ne (fname : String) (i : Nat) :
    codegen_var_name fname i ≠ fname := by
  intro h
  have hlen := congrArg String.length h
  rw [codegen_var_name, String.length_append, String.length_append] at hlen
  have h6 : ("::var_" : String).length = 6 := rfl
  omega

/-- The variable-materializer fold only inserts per-slot symbols, so any
lookup under a name distinct from all of them is unchanged. -/
theorem declare_fold_preserves_lookup (cg : Ty → CTy) (fn : FnInfo) (n : String) :
    ∀ (l : List (Nat × LocalDecl)),
      (∀ p ∈ l, codegen_var_name fn.name p.1 ≠ n) →
      ∀ acc : SymbolTable × List Stmt,
        st_lookup (l.foldl (declare_var_step cg fn) acc).1 n = st_lookup acc.1 n := by
  intro l
  induction l with
  | nil => intro _ acc; rfl
  | cons p rest ih =>
    intro hne acc
    have hp := hne p (List.mem_cons_self _ _)
    have hrest : ∀ q ∈ rest, codegen_var_name fn.name q.1 ≠ n :=
      fun q hq => hne q (List.mem_cons_of_mem _ hq)
    rw [List.foldl_cons, ih hrest]
    unfold declare_var_step
    by_cases hs : some p.1 = fn.mir.spread_arg
    · rw [if_pos hs]
    · rw [if_neg hs]
      by_cases he : p.1 < 1 ∨ p.1 > fn.mir.arg_count
      · rw [if_pos he]
        exact st_lookup_insert_ne _ _ _ hp
      · rw [if_neg he]
        exact st_lookup_insert_ne _ _ _ hp

/-- Without a spread argument the untupling prelude does nothing. -/
theorem prelude_no_spread (cg : Ty → CTy) (fn : FnInfo) (st : SymbolTable)
    (h : fn.mir.spread_arg = none) :
    codegen_function_prelude cg fn st = Except.ok (st, []) := by
  unfold codegen_function_prelude
  rw [h]

/-- C10: translating an unfiltered, spread-free instance from its
declaration-only symbol installs exactly one body on that symbol, and
re-invoking translation on the same instance only appends a non-fatal
"Double codegen" warning, leaving the symbol table, the installed body,
the registry and the diagnostics unchanged. -/
theorem translate_once_then_warn
    (cg : Ty → CTy) (bt : Nat → List Stmt) (fn : FnInfo) (ctx ctx1 : TransCtx)
    (sym : Symbol)
    (hlook : st_lookup ctx.symbol_table fn.name = some sym)
    (hfn : sym.is_fn = true)
    (hundef : sym.value = SymValue.noneV)
    (hskip : should_skip_current_fn fn.readable_name = false)
    (hspread : fn.mir.spread_arg = none)
    (hok : codegen_function cg bt fn ctx = Except.ok ctx1) :
    (∃ body, st_lookup ctx1.symbol_table fn.name =
       some { sym with value := SymValue.stmtV body }) ∧
    codegen_function cg bt fn ctx1 =
      Except.ok { ctx1 with warnings :=
        ctx1.warnings ++ ["Double codegen of " ++ fn.name] } := by
  have hndef : sym.is_function_definition = false := by
    simp [Symbol.is_function_definition, hundef]
  unfold codegen_function at hok
  rw [prelude_no_spread cg fn ctx.symbol_table hspread] at hok
  simp only [hlook, hndef, hskip, hfn, Bool.false_eq_true, if_false, Bool.not_true,
    if_true] at hok
  have hpres := handle_attrs_st_warnings fn _ _ hok
  have hlk1 : st_lookup ctx1.symbol_table fn.name =
      some { sym with value := (SymValue.stmtV
        (Stmt.block ((codegen_declare_variables cg fn ctx.symbol_table []).2 ++
          (fn.mir.basic_blocks.map bt).flatten) fn.mir.span_loc)) } := by
    rw [hpres.1]
    apply st_lookup_update_self
    unfold codegen_declare_variables
    rw [declare_fold_preserves_lookup cg fn fn.name (fn.mir.local_decls.enum)
      (fun p _ => codegen_var_name_ne fn.name p.1) (ctx.symbol_table, [])]
    exact hlook
  constructor
  · exact ⟨_, hlk1⟩
  · have hdef1 : ({ sym with value := (SymValue.stmtV
        (Stmt.block ((codegen_declare_variables cg fn ctx.symbol_table []).2 ++
          (fn.mir.basic_blocks.map bt).flatten) fn.mir.span_loc)) } :
        Symbol).is_function_definition = true := by
      simp [Symbol.is_function_definition, hfn]
    unfold codegen_function
    simp only [hlk1, hdef1, if_true]

/-- Witness for translate_once_then_warn: translating the concrete
instance exFnFull from exCtxG and then re-entering on the result. -/
theorem translate_once_then_warn_witness :
    ((∃ body, st_lookup exCtxG1.symbol_table exFnFull.name =
       some { exSymG with value := SymValue.stmtV body }) ∧
     codegen_function exCg exBt exFnFull exCtxG1 =
       Except.ok { exCtxG1 with warnings :=
         exCtxG1.warnings ++ ["Double codegen of " ++ exFnFull.name] }) :=
  translate_once_then_warn exCg exBt exFnFull exCtxG exCtxG1 exSymG rfl rfl rfl
    (by decide) rfl rfl

/-- The statement block produced by the materializer fold grows by exactly
the declarations of the slots satisfying emits_decl, in index order. -/
theorem declare_fold_block (cg : Ty → CTy) (fn : FnInfo) :
    ∀ (l : List (Nat × LocalDecl)) (acc : SymbolTable × List Stmt),
      (l.foldl (declare_var_step cg fn) acc).2 =
        acc.2 ++ (l.filter (emits_decl fn)).map (decl_stmt_of fn) := by
  intro l
  induction l with
  | nil => intro acc; simp
  | cons p rest ih =>
    intro acc
    rw [List.foldl_cons, ih]
    by_cases hs : some p.1 = fn.mir.spread_arg
    · have hem : emits_decl fn p = false := by simp [emits_decl, hs]
      rw [List.filter_cons_of_neg (by simp [hem])]
      unfold declare_var_step
      rw [if_pos hs]
    · by_cases he : p.1 < 1 ∨ p.1 > fn.mir.arg_count
      · have hem : emits_decl fn p = true := by
          simp [emits_decl, hs]
          omega
        rw [List.filter_cons_of_pos (by simp [hem])]
        unfold declare_var_step
        rw [if_neg hs, if_pos he]
        simp [decl_stmt_of]
      · have hem : emits_decl fn p = false := by
          simp [emits_decl, hs]
          omega
        rw [List.filter_cons_of_neg (by simp [hem])]
        unfold declare_var_step
        rw [if_neg hs, if_neg he]

/-- C2 (counterexample): for the concrete instance exFnRet, whose only
local slot is the return slot (index 0) and which has no declared
arguments, the materializer does emit a declaration statement for the
return slot, contradicting the claim that no declaration is emitted for
slot 0. -/
theorem return_slot_gets_declaration :
    (codegen_declare_variables exCg exFnRet [] []).2 =
      [Stmt.decl (Expr.symbolE "f::var_0") none ⟨"c.rs", 2⟩] := rfl

/-- C2 (amended): the materializer emits a declaration statement into the
current statement block exactly for the local slots that are not the
spread-argument slot and whose index is either the return slot (index 0)
or greater than the declared-argument count; so argument slots 1 through
arg_count are never redeclared, but the return slot does get a
declaration. -/
theorem declare_variables_decl_exact
    (cg : Ty → CTy) (fn : FnInfo) (st : SymbolTable) (blk : List Stmt) :
    (codegen_declare_variables cg fn st blk).2 =
      blk ++ ((fn.mir.local_decls.enum).filter (emits_decl fn)).map (decl_stmt_of fn) :=
  declare_fold_block cg fn _ (st, blk)

/-- The fuel-driven digit accumulator of Nat.repr agrees with Mathlib's
digit list: for positive n with enough fuel it prepends the big-endian
decimal digit characters of n. -/
theorem toDigitsCore_eq_digits :
    ∀ (fuel n : Nat) (ds : List Char), n < fuel → 0 < n →
      Nat.toDigitsCore 10 fuel n ds =
        ((Nat.digits 10 n).map Nat.digitChar).reverse ++ ds := by
  intro fuel
  induction fuel with
  | zero => intro n ds h1 _; omega
  | succ fuel ih =>
    intro n ds hlt hpos
    simp only [Nat.toDigitsCore]
    by_cases hdiv : n / 10 = 0
    · rw [if_pos hdiv]
      have hn10 : n < 10 := (Nat.div_eq_zero_iff (by norm_num)).1 hdiv
      have hdig : Nat.digits 10 n = [n % 10] := by
        rw [Nat.digits_def' (by norm_num : (1 : ℕ) < 10) hpos, hdiv, Nat.digits_zero]
      rw [hdig]
      simp
    · rw [if_neg hdiv]
      have hpos2 : 0 < n / 10 := Nat.pos_of_ne_zero hdiv
      have hlt2 : n / 10 < fuel := by
        have hdl : n / 10 < n := Nat.div_lt_self hpos (by norm_num)
        omega
      rw [ih (n / 10) (Nat.digitChar (n % 10) :: ds) hlt2 hpos2]
      rw [Nat.digits_def' (by norm_num : (1 : ℕ) < 10) hpos]
      simp

/-- For positive n, Nat.toDigits is the reversed digit-character list of
the base-10 digits. -/
theorem toDigits_eq_digits_reverse (n : Nat) (hn : 0 < n) :
    Nat.toDigits 10 n = ((Nat.digits 10 n).map Nat.digitChar).reverse := by
  have h := toDigitsCore_eq_digits (n + 1) n [] (by omega) hn
  simpa [Nat.toDigits] using h

/-- Decoding a digit character below ten recovers the digit. -/
theorem charVal_digitChar (d : Nat) (hd : d < 10) :
    charVal (Nat.digitChar d) = d := by
  interval_cases d <;> rfl

/-- decodeDigits is a left inverse of Nat.toDigits at base ten. -/
theorem decode_toDigits (n : Nat) : decodeDigits (Nat.toDigits 10 n) = n := by
  rcases Nat.eq_zero_or_pos n with h | h
  · subst h
    simp only [Nat.toDigits, Nat.toDigitsCore, decodeDigits, charVal, Nat.ofDigits]
    decide
  · rw [toDigits_eq_digits_reverse n h]
    unfold decodeDigits
    rw [List.map_reverse, List.reverse_reverse, List.map_map]
    have hmap : (Nat.digits 10 n).map (charVal ∘ Nat.digitChar) = Nat.digits 10 n := by
      have hc : ∀ d ∈ Nat.digits 10 n, (charVal ∘ Nat.digitChar) d = id d :=
        fun d hd => charVal_digitChar d (Nat.digits_lt_base (by norm_num) hd)
      rw [List.map_congr_left hc, List.map_id]
    rw [hmap, Nat.ofDigits_digits]

/-- Stringified numeric indices are injective keys: Nat.repr is injective. -/
theorem Nat_repr_injective : Function.Injective Nat.repr := by
  intro m n h
  have hdata : Nat.toDigits 10 m = Nat.toDigits 10 n := by
    have h2 := congrArg String.data h
    simpa [Nat.repr, List.asString] using h2
  have h3 := congrArg decodeDigits hdata
  rwa [decode_toDigits, decode_toDigits] at h3

/-- Looking up the stringified index k + i in the marshalled map built
over enumFrom k finds exactly the i-th entry's value. -/
theorem assoc_lookup_enumFrom (g : Nat → Expr) :
    ∀ (l : List Ty) (k i : Nat), i < l.length →
      assoc_lookup ((l.enumFrom k).map (fun p => (Nat.repr p.1, g p.1))) (Nat.repr (k + i)) =
        some (g (k + i)) := by
  intro l
  induction l with
  | nil => intro k i h; simp at h
  | cons t rest ih =>
    intro k i h
    rw [List.enumFrom_cons, List.map_cons]
    unfold assoc_lookup
    by_cases hi : i = 0
    · subst hi
      rw [if_pos (by rw [Nat.add_zero])]
      rw [Nat.add_zero]
    · have hne : Nat.repr k ≠ Nat.repr (k + i) := by
        intro he
        have := Nat_repr_injective he
        omega
      rw [if_neg hne]
      have hsplit : k + i = (k + 1) + (i - 1) := by omega
      rw [hsplit]
      apply ih
      simp only [List.length_cons] at h
      omega

/-- struct_expr succeeds whenever every layout name has a value in the
marshalled map. -/
theorem struct_expr_fields_total (m : List (String × Expr)) :
    ∀ (layout : List String),
      (∀ f ∈ layout, (assoc_lookup m f).isSome) →
      ∃ vals, struct_expr_fields layout m = some vals := by
  intro layout
  induction layout with
  | nil => intro _; exact ⟨[], rfl⟩
  | cons f fs ih =>
    intro hall
    obtain ⟨v, hv⟩ := Option.isSome_iff_exists.1 (hall f (List.mem_cons_self _ _))
    obtain ⟨vs, hvs⟩ := ih (fun x hx => hall x (List.mem_cons_of_mem _ hx))
    refine ⟨v :: vs, ?_⟩
    unfold struct_expr_fields
    rw [hv, hvs]

/-- Name-addressed retrieval from the struct built by struct_expr recovers
the marshalled map's value for any layout name: the aggregate is resilient
to layout reordering. -/
theorem struct_member_eq_lookup (m : List (String × Expr)) :
    ∀ (layout : List String) (vals : List Expr) (key : String),
      struct_expr_fields layout m = some vals →
      key ∈ layout →
      struct_member layout vals key = assoc_lookup m key := by
  intro layout
  induction layout with
  | nil => intro vals key _ hk; simp at hk
  | cons f fs ih =>
    intro vals key hse hk
    unfold struct_expr_fields at hse
    cases hv : assoc_lookup m f with
    | none => rw [hv] at hse; cases hse
    | some v =>
      rw [hv] at hse
      cases hvs : struct_expr_fields fs m with
      | none => rw [hvs] at hse; cases hse
      | some vs =>
        rw [hvs] at hse
        injection hse with hse
        subst hse
        unfold struct_member
        by_cases hf : f = key
        · subst hf
          rw [if_pos rfl, hv]
        · rw [if_neg hf]
          apply ih vs key hvs
          rcases List.mem_cons.1 hk with hkey | hkey
          · exact absurd hkey.symm hf
          · exact hkey

/-- C5: untupling round-trip. For a function with a spread-argument slot
whose last signature parameter is a tuple, the prelude declares the spread
local initialized with an aggregate whose fields are keyed by stringified
original index, and for every component index i below the tuple arity,
name-addressed retrieval at key i from that aggregate yields exactly the
i-th synthesized spread parameter, for any layout permutation of the
target struct's fields. -/
theorem untupling_round_trip
    (cg : Ty → CTy) (fn : FnInfo) (st : SymbolTable) (k : Nat) (sd : LocalDecl)
    (inputs args : List Ty) (layout : List String)
    (hspread : fn.mir.spread_arg = some k)
    (hsd : fn.mir.local_decls.get? k = some sd)
    (hty : fn.fntyp = Ty.fnDef inputs)
    (hlast : inputs.getLast? = some (Ty.tuple args))
    (hcg : cg sd.ty = CTy.structT layout)
    (hperm : layout.Perm ((List.range args.length).map Nat.repr)) :
    ∃ st1 vals,
      codegen_function_prelude cg fn st =
        Except.ok (st1, [Stmt.decl (Expr.symbolE (codegen_var_name fn.name k))
          (some (Expr.structE vals)) sd.loc]) ∧
      ∀ i, i < args.length →
        struct_member layout vals (Nat.repr i) =
          some (Expr.symbolE (codegen_spread_arg_name fn.name (i + inputs.length)).1) := by
  have hn : ∀ f ∈ layout, ∃ j, j < args.length ∧ f = Nat.repr j := by
    intro f hf
    have hf2 : f ∈ (List.range args.length).map Nat.repr := hperm.mem_iff.1 hf
    obtain ⟨j, hj, hrepr⟩ := List.mem_map.1 hf2
    exact ⟨j, List.mem_range.1 hj, hrepr.symm⟩
  have hm2 : ((args.enum.map (spread_component cg fn.name inputs.length sd.loc)).map
        (fun q => q.2))
      = (args.enumFrom 0).map
        (fun p => (Nat.repr p.1,
          Expr.symbolE (codegen_spread_arg_name fn.name (p.1 + inputs.length)).1)) := by
    rw [List.map_map]
    rfl
  have hlook : ∀ i, i < args.length →
      assoc_lookup ((args.enum.map (spread_component cg fn.name inputs.length sd.loc)).map
          (fun q => q.2)) (Nat.repr i) =
        some (Expr.symbolE (codegen_spread_arg_name fn.name (i + inputs.length)).1) := by
    intro i hi
    rw [hm2]
    have h0 := assoc_lookup_enumFrom
      (fun j => Expr.symbolE (codegen_spread_arg_name fn.name (j + inputs.length)).1)
      args 0 i hi
    simpa using h0
  have hsome : ∀ f ∈ layout,
      (assoc_lookup ((args.enum.map (spread_component cg fn.name inputs.length sd.loc)).map
        (fun q => q.2)) f).isSome := by
    intro f hf
    obtain ⟨j, hj, hrepr⟩ := hn f hf
    rw [hrepr, hlook j hj]
    rfl
  obtain ⟨vals, hvals⟩ := struct_expr_fields_total _ layout hsome
  refine ⟨st_insert
      ((args.enum.map (spread_component cg fn.name inputs.length sd.loc)).foldl
        (fun s q => st_insert s q.1) st)
      (Symbol.variable (codegen_var_name fn.name k) (codegen_var_base_name k)
        (CTy.structT layout) sd.loc), vals, ?_, ?_⟩
  · unfold codegen_function_prelude
    rw [hspread]
    simp only [hsd, hty]
    unfold codegen_prelude_core
    simp only [hlast, monomorphize, hcg, ctyFields]
    simp only [hvals]
    rfl
  · intro i hi
    have hmem : Nat.repr i ∈ layout :=
      hperm.mem_iff.2 (List.mem_map.2 ⟨i, List.mem_range.2 hi, rfl⟩)
    rw [struct_member_eq_lookup _ layout vals (Nat.repr i) hvals hmem, hlook i hi]

/-- Witness for untupling_round_trip: a two-component tuple whose target
layout swaps the fields. -/
theorem untupling_round_trip_witness :
    ∃ st1 vals,
      codegen_function_prelude exCgSwap exFnSpread [] =
        Except.ok (st1, [Stmt.decl (Expr.symbolE (codegen_var_name "h" 2))
          (some (Expr.structE vals)) ⟨"d.rs", 4⟩]) ∧
      ∀ i, i < 2 →
        struct_member ["1", "0"] vals (Nat.repr i) =
          some (Expr.symbolE (codegen_spread_arg_name "h" (i + 2)).1) :=
  untupling_round_trip exCgSwap exFnSpread [] 2
    ⟨Ty.tuple [Ty.otherTy 1, Ty.otherTy 2], ⟨"d.rs", 4⟩, false⟩
    [Ty.otherTy 9, Ty.tuple [Ty.otherTy 1, Ty.otherTy 2]]
    [Ty.otherTy 1, Ty.otherTy 2] ["1", "0"]
    rfl rfl rfl rfl rfl (by decide)

end RmcCodegen
